import Mathlib

/-!
# Lane-Emden polytrope integrator: shallow embedding and verification

Shallow embedding of the algorithmic core of the Lane-Emden notebook
(`Lane-Emden.ipynb`): the derivative function `LE`, the near-origin series
starter `center`, the classical RK4 stepper `rk4`, and the adaptive
integration driver `integrate`.

Floating-point arithmetic is modelled by exact rational arithmetic over `ℚ`.
The polytropic index `n` is modelled as an integer (`ℤ`) in the derivative
function, since `y0 ** n` for a fractional index is a transcendental
operation with no exact rational counterpart; the series starter `center`
is polynomial in `n` and is modelled with `n : ℚ` in full generality.
Division by zero in `ℚ` yields `0`; runs in which the source would divide
by zero (a zero state component or derivative component) are outside the
faithful fragment of the model, and theorems that need to exclude them
carry explicit nondegeneracy hypotheses.

The driver's loop is modelled as an explicit state machine: `RunState`
carries the current working point (`x`, `y`), the last stored abscissa
(`lastX`, mirroring `x_store[str_ptr]`), the stored sequences (`xs`, `ys`),
and a `done` flag modelling the `break` out of the loop. One iteration of
the Python `for i in xrange(1,nstps)` body is `loopStep`; `integrateRun`
iterates it `nstps - 1` times from the seeded initial state, and
`integrate` returns the stored sequences, mirroring
`return x_store[0:str_ptr+1], y_store[0:str_ptr+1,:]`.
-/

set_option maxRecDepth 10000
set_option maxHeartbeats 2000000

namespace LaneEmden

/-- Integer power on `ℚ`, modelling Python's `**` with an integer exponent.
Defined by explicit case split so that it evaluates by kernel reduction;
`ipow_eq_zpow` identifies it with Mathlib's `zpow`. -/
def ipow (q : ℚ) : ℤ → ℚ
  | Int.ofNat m => q ^ m
  | Int.negSucc m => (q ^ (m + 1))⁻¹

theorem ipow_eq_zpow (q : ℚ) (n : ℤ) : ipow q n = q ^ n := by
  cases n with
  | ofNat m => simp [ipow]
  | negSucc m => simp [ipow, zpow_negSucc]

/-- The Lane-Emden right-hand side, from
`def LE(x,y,n): return np.array([y[1], -y[0]**n - 2*y[1]/x])`.
The state is the pair `y = (y0, y1)`. -/
def LE (x : ℚ) (y : ℚ × ℚ) (n : ℤ) : ℚ × ℚ :=
  (y.2, -ipow y.1 n - 2 * y.2 / x)

/-- The near-origin series starter, from `def center(h,n)`:
`y[0] = 1 + h2*(-1/6 + h2*(n/120 - n*(8*n-5)*h2/15120))`,
`y[1] = h*(-1/3 + h2*(n/30 - n*(8*n-5)*h2/2520))` with `h2 = h**2`. -/
def center (h : ℚ) (n : ℚ) : ℚ × ℚ :=
  let h2 := h ^ 2
  (1 + h2 * (-1/6 + h2 * (n/120 - n*(8*n-5)*h2/15120)),
   h * (-1/3 + h2 * (n/30 - n*(8*n-5)*h2/2520)))

/-- The classical four-stage Runge-Kutta stepper, from `def rk4(t,h,y,f,*args)`.
The extra `*args` of the source are folded into the passed-in derivative
evaluator `f` (a closure), as the spec's design notes allow. -/
def rk4 (t h : ℚ) (y : ℚ × ℚ) (f : ℚ → ℚ × ℚ → ℚ × ℚ) : ℚ × ℚ :=
  let h12 := h / 2
  let t12 := t + h12
  let k1 := f t y
  let k2 := f t12 (y + h12 • k1)
  let k3 := f t12 (y + h12 • k2)
  let k4 := f (t + h) (y + h • k3)
  y + (h / 6) • (k1 + (2:ℚ) • k2 + (2:ℚ) • k3 + k4)

/-- The componentwise local scale length, from
`H_P = abs(y[i-1,:]/LE(x[i-1],y[i-1,:],n))`. -/
def H_P (n : ℤ) (x : ℚ) (y : ℚ × ℚ) : ℚ × ℚ :=
  (|y.1 / (LE x y n).1|, |y.2 / (LE x y n).2|)

/-- The adaptive step size, from `h = 0.05*min(H_P)`. -/
def stepSize (n : ℤ) (x : ℚ) (y : ℚ × ℚ) : ℚ :=
  0.05 * min (H_P n x y).1 (H_P n x y).2

/-- The loop state of the driver: current working point (`x`, `y`), the last
stored abscissa `lastX` (mirroring `x_store[str_ptr]`), the stored sequences
`xs` and `ys` (mirroring `x_store[0:str_ptr+1]` and `y_store[0:str_ptr+1,:]`),
and `done` (whether the `break` has fired). -/
structure RunState where
  x : ℚ
  y : ℚ × ℚ
  lastX : ℚ
  xs : List ℚ
  ys : List (ℚ × ℚ)
  done : Bool
deriving DecidableEq

/-- One iteration of the driver loop body `for i in xrange(1,nstps)`:
compute `H_P` and `h` at the previous point, advance by one RK4 step,
then either break with the terminal extrapolated point
(`x_store[str_ptr] = x[i] + H_P[0]`) when `h < prec`, or store the new
point when `x[i] > x_store[str_ptr]+dx_store`, or store nothing.
A `done` state models having left the loop through `break`. -/
def loopStep (n : ℤ) (prec dx_store : ℚ) (s : RunState) : RunState :=
  if s.done then s else
  let hp := H_P n s.x s.y
  let h := 0.05 * min hp.1 hp.2
  let ynew := rk4 s.x h s.y (fun t y => LE t y n)
  let xnew := s.x + h
  if h < prec then
    ⟨xnew, ynew, xnew + hp.1, s.xs ++ [xnew + hp.1], s.ys ++ [ynew], true⟩
  else if xnew > s.lastX + dx_store then
    ⟨xnew, ynew, xnew, s.xs ++ [xnew], s.ys ++ [ynew], false⟩
  else
    ⟨xnew, ynew, s.lastX, s.xs, s.ys, false⟩

/-- The driver's seeded state, from `x[0] = h; y[0,:] = center(x[0],n);
x_store[0] = x[0]; y_store[0,:] = y[0,:]; str_ptr = 0`. -/
def initState (n : ℤ) (h : ℚ) : RunState :=
  ⟨h, center h (n:ℚ), h, [h], [center h (n:ℚ)], false⟩

/-- The whole driver run: `nstps - 1` iterations of the loop body
(`for i in xrange(1,nstps)`), with `break` modelled by the absorbing
`done` flag. -/
def integrateRun (n : ℤ) (h : ℚ) (nstps : ℕ) (prec dx_store : ℚ) : RunState :=
  (loopStep n prec dx_store)^[nstps - 1] (initState n h)

/-- The adaptive integration driver `integrate(n,h,nstps,prec,dx_store)`:
returns the stored sequences `x_store[0:str_ptr+1], y_store[0:str_ptr+1,:]`. -/
def integrate (n : ℤ) (h : ℚ) (nstps : ℕ) (prec dx_store : ℚ) :
    List ℚ × List (ℚ × ℚ) :=
  ((integrateRun n h nstps prec dx_store).xs,
   (integrateRun n h nstps prec dx_store).ys)

/-- A run state at which the source's floating-point arithmetic performs no
division by zero and no vanishing scale length: both state components and the
second derivative component are nonzero (the first derivative component is
`y1` itself). Exactly these conditions make both components of `H_P`
positive. -/
def Nondegenerate (n : ℤ) (s : RunState) : Prop :=
  s.y.1 ≠ 0 ∧ s.y.2 ≠ 0 ∧ (LE s.x s.y n).2 ≠ 0

instance (n : ℤ) (s : RunState) : Decidable (Nondegenerate n s) := by
  unfold Nondegenerate; infer_instance

/-- A state that has left the loop through `break` is absorbing: the loop body
does nothing to it (the remaining iterations of the model are no-ops). -/
theorem loopStep_of_done (n : ℤ) (prec dx_store : ℚ) (s : RunState)
    (h : s.done = true) : loopStep n prec dx_store s = s := by
  unfold loopStep
  rw [h]
  rfl

/-- The `done` flag can only be set by the loop body, never cleared. -/
theorem done_of_loopStep_done (n : ℤ) (prec dx_store : ℚ) (s : RunState)
    (h : (loopStep n prec dx_store s).done = false) : s.done = false := by
  by_contra hc
  rw [loopStep_of_done n prec dx_store s (by revert hc; cases s.done <;> simp)] at h
  revert hc
  rw [h]
  simp

/-- Unfolding of the loop body on a live state, with the chosen step size
written through `stepSize`. -/
theorem loopStep_live (n : ℤ) (prec dx_store : ℚ) (s : RunState)
    (hdone : s.done = false) :
    loopStep n prec dx_store s =
      (if stepSize n s.x s.y < prec then
        ⟨s.x + stepSize n s.x s.y,
         rk4 s.x (stepSize n s.x s.y) s.y (fun t y => LE t y n),
         s.x + stepSize n s.x s.y + (H_P n s.x s.y).1,
         s.xs ++ [s.x + stepSize n s.x s.y + (H_P n s.x s.y).1],
         s.ys ++ [rk4 s.x (stepSize n s.x s.y) s.y (fun t y => LE t y n)], true⟩
      else if s.x + stepSize n s.x s.y > s.lastX + dx_store then
        ⟨s.x + stepSize n s.x s.y,
         rk4 s.x (stepSize n s.x s.y) s.y (fun t y => LE t y n),
         s.x + stepSize n s.x s.y,
         s.xs ++ [s.x + stepSize n s.x s.y],
         s.ys ++ [rk4 s.x (stepSize n s.x s.y) s.y (fun t y => LE t y n)], false⟩
      else
        ⟨s.x + stepSize n s.x s.y,
         rk4 s.x (stepSize n s.x s.y) s.y (fun t y => LE t y n),
         s.lastX, s.xs, s.ys, false⟩ : RunState) := by
  unfold loopStep stepSize
  rw [hdone]
  rfl

/-- The chosen step size is never negative (it is 0.05 times a minimum of
absolute values). -/
theorem stepSize_nonneg (n : ℤ) (x : ℚ) (y : ℚ × ℚ) : 0 ≤ stepSize n x y := by
  unfold stepSize H_P
  have h1 : (0:ℚ) ≤ min |y.1 / (LE x y n).1| |y.2 / (LE x y n).2| :=
    le_min (abs_nonneg _) (abs_nonneg _)
  have h2 : (0:ℚ) ≤ 0.05 := by norm_num
  exact mul_nonneg h2 h1

/-- On a nondegenerate state the chosen step size is strictly positive. -/
theorem stepSize_pos (n : ℤ) (s : RunState) (hd : Nondegenerate n s) :
    0 < stepSize n s.x s.y := by
  obtain ⟨h1, h2, h3⟩ := hd
  unfold stepSize H_P
  have h5 : (0:ℚ) < 0.05 := by norm_num
  refine mul_pos h5 (lt_min ?_ ?_)
  · exact abs_pos.mpr (div_ne_zero h1 h2)
  · exact abs_pos.mpr (div_ne_zero h2 h3)

/-- The structural invariant of the driver loop: the two stored sequences
have equal length and are non-empty, their first entries are the seeded
initial point, `lastX` mirrors the last stored abscissa, the last stored
abscissa never exceeds the working abscissa while the loop is live, stored
abscissas are monotone, and all consecutive stored abscissas other than a
final terminal one are separated by more than `dx_store`. -/
structure Inv (n : ℤ) (h dx_store : ℚ) (s : RunState) : Prop where
  len : s.xs.length = s.ys.length
  ne : s.xs ≠ []
  headx : s.xs.head? = some h
  heady : s.ys.head? = some (center h (n:ℚ))
  last : s.xs.getLast? = some s.lastX
  lastle : s.done = false → s.lastX ≤ s.x
  mono : List.Chain' (· ≤ ·) s.xs
  spacing : List.Chain' (fun a b => dx_store < b - a)
    (if s.done then s.xs.dropLast else s.xs)

theorem inv_init (n : ℤ) (h dx_store : ℚ) : Inv n h dx_store (initState n h) where
  len := rfl
  ne := by simp [initState]
  headx := rfl
  heady := rfl
  last := rfl
  lastle := fun _ => le_refl _
  mono := List.chain'_singleton _
  spacing := List.chain'_singleton _

theorem inv_step (n : ℤ) (h prec dx_store : ℚ) (s : RunState)
    (hs : Inv n h dx_store s) : Inv n h dx_store (loopStep n prec dx_store s) := by
  cases hdone : s.done with
  | true => rwa [loopStep_of_done n prec dx_store s hdone]
  | false =>
    rw [loopStep_live n prec dx_store s hdone]
    have hxle : s.x ≤ s.x + stepSize n s.x s.y :=
      le_add_of_nonneg_right (stepSize_nonneg n s.x s.y)
    have hlastle : s.lastX ≤ s.x + stepSize n s.x s.y :=
      le_trans (hs.lastle hdone) hxle
    have hlast : ∀ a ∈ s.xs.getLast?, a = s.lastX := by
      intro a ha
      rw [hs.last] at ha
      exact (Option.some_inj.mp (Option.mem_def.mp ha)).symm
    have hyne : s.ys ≠ [] := by
      intro hnil
      exact hs.ne (List.eq_nil_of_length_eq_zero (hs.len.trans (by rw [hnil]; rfl)))
    have hsp := hs.spacing
    rw [hdone, if_neg Bool.false_ne_true] at hsp
    split_ifs with h1 h2
    · -- terminal append
      refine ⟨?_, ?_, ?_, ?_, ?_, ?_, ?_, ?_⟩
      · simp [hs.len]
      · simp
      · rw [List.head?_append_of_ne_nil _ hs.ne]; exact hs.headx
      · rw [List.head?_append_of_ne_nil _ hyne]; exact hs.heady
      · simp
      · intro hf; exact absurd hf (by simp)
      · rw [List.chain'_append]
        refine ⟨hs.mono, List.chain'_singleton _, ?_⟩
        intro a ha b hb
        rw [List.head?_cons] at hb
        rw [hlast a ha, ← Option.some_inj.mp (Option.mem_def.mp hb)]
        exact le_trans hlastle (le_add_of_nonneg_right (abs_nonneg _))
      · simpa [List.dropLast_concat] using hsp
    · -- storage append
      refine ⟨?_, ?_, ?_, ?_, ?_, ?_, ?_, ?_⟩
      · simp [hs.len]
      · simp
      · rw [List.head?_append_of_ne_nil _ hs.ne]; exact hs.headx
      · rw [List.head?_append_of_ne_nil _ hyne]; exact hs.heady
      · simp
      · intro _; exact le_refl _
      · rw [List.chain'_append]
        refine ⟨hs.mono, List.chain'_singleton _, ?_⟩
        intro a ha b hb
        rw [List.head?_cons] at hb
        rw [hlast a ha, ← Option.some_inj.mp (Option.mem_def.mp hb)]
        exact hlastle
      · rw [if_neg Bool.false_ne_true, List.chain'_append]
        refine ⟨hsp, List.chain'_singleton _, ?_⟩
        intro a ha b hb
        rw [List.head?_cons] at hb
        rw [hlast a ha, ← Option.some_inj.mp (Option.mem_def.mp hb)]
        linarith [h2]
    · -- no store
      exact ⟨hs.len, hs.ne, hs.headx, hs.heady, hs.last, fun _ => hlastle,
        hs.mono, by rw [if_neg Bool.false_ne_true]; exact hsp⟩

theorem inv_iter (n : ℤ) (h prec dx_store : ℚ) (m : ℕ) :
    Inv n h dx_store ((loopStep n prec dx_store)^[m] (initState n h)) := by
  induction m with
  | zero => exact inv_init n h dx_store
  | succ k ih =>
    rw [Function.iterate_succ_apply']
    exact inv_step n h prec dx_store _ ih

theorem inv_run (n : ℤ) (h : ℚ) (nstps : ℕ) (prec dx_store : ℚ) :
    Inv n h dx_store (integrateRun n h nstps prec dx_store) :=
  inv_iter n h prec dx_store (nstps - 1)

theorem strict_step (n : ℤ) (h prec dx_store : ℚ) (s : RunState)
    (hs : Inv n h dx_store s)
    (hchain : List.Chain' (· < ·) s.xs)
    (hnd : s.done = false → Nondegenerate n s) :
    List.Chain' (· < ·) (loopStep n prec dx_store s).xs := by
  cases hdone : s.done with
  | true => rwa [loopStep_of_done n prec dx_store s hdone]
  | false =>
    have hpos := stepSize_pos n s (hnd hdone)
    have hxlt : s.lastX < s.x + stepSize n s.x s.y :=
      lt_of_le_of_lt (hs.lastle hdone) (lt_add_of_pos_right _ hpos)
    have hlast : ∀ a ∈ s.xs.getLast?, a = s.lastX := by
      intro a ha
      rw [hs.last] at ha
      exact (Option.some_inj.mp (Option.mem_def.mp ha)).symm
    rw [loopStep_live n prec dx_store s hdone]
    split_ifs with h1 h2
    · rw [List.chain'_append]
      refine ⟨hchain, List.chain'_singleton _, ?_⟩
      intro a ha b hb
      rw [List.head?_cons] at hb
      rw [hlast a ha, ← Option.some_inj.mp (Option.mem_def.mp hb)]
      exact lt_of_lt_of_le hxlt (le_add_of_nonneg_right (abs_nonneg _))
    · rw [List.chain'_append]
      refine ⟨hchain, List.chain'_singleton _, ?_⟩
      intro a ha b hb
      rw [List.head?_cons] at hb
      rw [hlast a ha, ← Option.some_inj.mp (Option.mem_def.mp hb)]
      exact hxlt
    · exact hchain

theorem strict_run (n : ℤ) (h prec dx_store : ℚ) (m : ℕ)
    (hnd : ∀ k < m, ((loopStep n prec dx_store)^[k] (initState n h)).done = false →
      Nondegenerate n ((loopStep n prec dx_store)^[k] (initState n h))) :
    List.Chain' (· < ·) ((loopStep n prec dx_store)^[m] (initState n h)).xs := by
  induction m with
  | zero => exact List.chain'_singleton _
  | succ k ih =>
    rw [Function.iterate_succ_apply']
    exact strict_step n h prec dx_store _ (inv_iter n h prec dx_store k)
      (ih (fun j hj => hnd j (Nat.lt_succ_of_lt hj)))
      (hnd k (Nat.lt_succ_self k))

/-- Claim C6: for every ξ > 0, state (y0, y1), and index n, the derivative
function `LE` returns exactly the vector (y1, −y0^n − 2·y1/ξ), as a pure
function of its inputs. -/
theorem LE_formula (x : ℚ) (y : ℚ × ℚ) (n : ℤ) (_hx : 0 < x) :
    LE x y n = (y.2, -y.1 ^ n - 2 * y.2 / x) := by
  unfold LE; rw [ipow_eq_zpow]

/-- Witness for C6 at ξ = 1, y = (2, 3), n = 2. -/
theorem LE_formula_witness :
    (0:ℚ) < 1 ∧ LE 1 (2, 3) 2 = (3, -10) :=
  ⟨by norm_num,
    (LE_formula 1 (2, 3) 2 (by norm_num)).trans (by norm_num [Prod.ext_iff])⟩

/-- Claim C4: for every offset h and index n, the near-origin starter
`center` returns exactly the pair of series values stated in the spec,
deterministically and with no error conditions. -/
theorem center_series (h n : ℚ) :
    center h n =
      (1 + h^2 * (-1/6 + h^2 * (n/120 - n*(8*n-5)*h^2/15120)),
       h * (-1/3 + h^2 * (n/30 - n*(8*n-5)*h^2/2520))) := rfl

/-- Claim C5: for every t, h, state y, and derivative function f, the
stepper `rk4` returns exactly y + h/6·(k1+2k2+2k3+k4) with the standard
four stage values k1 = f(t,y), k2 = f(t+h/2, y+h/2·k1),
k3 = f(t+h/2, y+h/2·k2), k4 = f(t+h, y+h·k3). -/
theorem rk4_formula (t h : ℚ) (y : ℚ × ℚ) (f : ℚ → ℚ × ℚ → ℚ × ℚ) :
    rk4 t h y f =
      y + (h / 6) •
        (f t y
          + (2:ℚ) • f (t + h/2) (y + (h/2) • f t y)
          + (2:ℚ) • f (t + h/2) (y + (h/2) • f (t + h/2) (y + (h/2) • f t y))
          + f (t + h)
              (y + h • f (t + h/2) (y + (h/2) • f (t + h/2) (y + (h/2) • f t y)))) :=
  rfl

/-- One live step never pushes stored abscissas above the working abscissa. -/
theorem stored_le_x_step (n : ℤ) (prec dx_store : ℚ) (s : RunState)
    (hprev : s.done = false → ∀ a ∈ s.xs, a ≤ s.x)
    (hdone2 : (loopStep n prec dx_store s).done = false) :
    ∀ a ∈ (loopStep n prec dx_store s).xs, a ≤ (loopStep n prec dx_store s).x := by
  have hdone := done_of_loopStep_done n prec dx_store s hdone2
  have hprev2 := hprev hdone
  have hxle : s.x ≤ s.x + stepSize n s.x s.y :=
    le_add_of_nonneg_right (stepSize_nonneg n s.x s.y)
  rw [loopStep_live n prec dx_store s hdone] at hdone2 ⊢
  rcases lt_or_ge (stepSize n s.x s.y) prec with h1 | h1
  · rw [if_pos h1] at hdone2
    exact absurd hdone2 (by simp)
  · rw [if_neg (not_lt.mpr h1)] at hdone2 ⊢
    by_cases h2 : s.x + stepSize n s.x s.y > s.lastX + dx_store
    · rw [if_pos h2]
      intro a ha
      dsimp only at ha ⊢
      rcases List.mem_append.mp ha with hold | hnew
      · exact le_trans (hprev2 a hold) hxle
      · rw [List.mem_singleton.mp hnew]
    · rw [if_neg h2]
      intro a ha
      dsimp only at ha ⊢
      exact le_trans (hprev2 a ha) hxle

/-- All stored abscissas stay at or below the working abscissa as long as the
loop is live, so a run that never fires the terminal test returns a sequence
that never reaches past its last working point. -/
theorem stored_le_x (n : ℤ) (h prec dx_store : ℚ) (m : ℕ)
    (hdone : ((loopStep n prec dx_store)^[m] (initState n h)).done = false) :
    ∀ a ∈ ((loopStep n prec dx_store)^[m] (initState n h)).xs,
      a ≤ ((loopStep n prec dx_store)^[m] (initState n h)).x := by
  induction m with
  | zero =>
    intro a ha
    simp only [Function.iterate_zero, id_eq, initState, List.mem_singleton] at ha ⊢
    rw [ha]
  | succ k ih =>
    rw [Function.iterate_succ_apply'] at hdone ⊢
    exact stored_le_x_step n prec dx_store _ (fun hk => ih hk) hdone

/-- Claim C1 (amended): whenever the chosen step size falls below `prec`, the
driver appends exactly one final point, with abscissa ξ_new + H_P[0]
(the scale length computed at the previous point) and the newly advanced
state, sets the `break` flag, and performs no further iteration (post-break
states are absorbing). The step-size test is, however, not the only way a
run ends normally: exhausting the step budget also returns normally (see the
counterexample). -/
theorem terminal_append (n : ℤ) (prec dx_store : ℚ) (s : RunState)
    (hdone : s.done = false) (hstep : stepSize n s.x s.y < prec) :
    (loopStep n prec dx_store s).xs
        = s.xs ++ [s.x + stepSize n s.x s.y + (H_P n s.x s.y).1] ∧
    (loopStep n prec dx_store s).ys
        = s.ys ++ [rk4 s.x (stepSize n s.x s.y) s.y (fun t y => LE t y n)] ∧
    (loopStep n prec dx_store s).done = true ∧
    ∀ t : RunState, t.done = true → loopStep n prec dx_store t = t := by
  rw [loopStep_live n prec dx_store s hdone, if_pos hstep]
  exact ⟨rfl, rfl, rfl, loopStep_of_done n prec dx_store⟩

/-- Claim C2 (amended): when the driver exhausts its step budget without the
chosen step size dropping below `prec`, it does not surface any failure: it
silently returns the (truncated) sequence stored so far, every entry of which
lies at or below the last working abscissa. -/
theorem nonconvergence_truncated (n : ℤ) (h : ℚ) (nstps : ℕ) (prec dx_store : ℚ)
    (hdone : (integrateRun n h nstps prec dx_store).done = false) :
    ∀ a ∈ (integrate n h nstps prec dx_store).1,
      a ≤ (integrateRun n h nstps prec dx_store).x :=
  stored_le_x n h prec dx_store (nstps - 1) hdone

/-- Claim C3: in every non-initial iteration (every live loop step), the step
used to advance is exactly 0.05·min(|y0/y0'|, |y1/y1'|) evaluated at the
previous point, the state advances by one RK4 step of that size, and the new
ξ is the previous ξ plus that step size. -/
theorem step_advance (n : ℤ) (prec dx_store : ℚ) (s : RunState)
    (hdone : s.done = false) :
    (loopStep n prec dx_store s).x
        = s.x + 0.05 * min |s.y.1 / (LE s.x s.y n).1| |s.y.2 / (LE s.x s.y n).2| ∧
    (loopStep n prec dx_store s).y
        = rk4 s.x
            (0.05 * min |s.y.1 / (LE s.x s.y n).1| |s.y.2 / (LE s.x s.y n).2|)
            s.y (fun t y => LE t y n) := by
  rw [loopStep_live n prec dx_store s hdone]
  split_ifs <;> exact ⟨rfl, rfl⟩

/-- Witness for C3 at the live initial state of the n = 1 run. -/
theorem step_advance_witness :
    (initState 1 (1/1000)).done = false ∧
    (loopStep 1 (1/1000000) (1/10) (initState 1 (1/1000))).x
      = (initState 1 (1/1000)).x
        + 0.05 * min
            |(initState 1 (1/1000)).y.1 /
              (LE (initState 1 (1/1000)).x (initState 1 (1/1000)).y 1).1|
            |(initState 1 (1/1000)).y.2 /
              (LE (initState 1 (1/1000)).x (initState 1 (1/1000)).y 1).2| :=
  ⟨rfl, (step_advance 1 (1/1000000) (1/10) (initState 1 (1/1000)) rfl).1⟩

/-- Claim C7 (amended): the derivative function performs no domain checking
and has no error path. Invoked at ξ = 0 it still returns a pair (in this
exact-arithmetic model the division by zero contributes 0; in the source's
floating point it contributes ±inf or NaN with at most a runtime warning);
nothing is raised in either case. -/
theorem LE_no_domain_check (y : ℚ × ℚ) (n : ℤ) :
    LE 0 y n = (y.2, -y.1 ^ n) := by
  unfold LE
  rw [ipow_eq_zpow, div_zero, sub_zero]

/-- Claim C8 (amended): `integrate` performs no validation of its
configuration: for every configuration with a positive step budget —
including non-positive h, prec, or dx_store and negative n — it runs the
loop and returns a (non-empty) trajectory; nothing is ever rejected. -/
theorem no_config_validation (n : ℤ) (h : ℚ) (nstps : ℕ) (prec dx_store : ℚ)
    (_hns : 0 < nstps) :
    (integrate n h nstps prec dx_store).1 ≠ [] :=
  (inv_run n h nstps prec dx_store).ne

/-- Witness for C8's amended theorem at the negative-index configuration of
the counterexample. -/
theorem no_config_validation_witness :
    0 < 2 ∧ (integrate (-1) (1/1000) 2 (1/1000000) (1/10)).1 ≠ [] :=
  ⟨by norm_num,
   no_config_validation (-1) (1/1000) 2 (1/1000000) (1/10) (by norm_num)⟩

/-- Claim C9: for every call to `integrate` that returns (a positive step
budget — with `nstps = 0` the source crashes on an out-of-bounds write
before returning — and a run on which the source's floating-point arithmetic
performs no division by zero, which in this exact model is the nondegeneracy
of every live iterate), the two returned sequences have equal length, are
non-empty, the ξ sequence is strictly increasing, and the first stored point
is the initial offset h with state center(h, n). -/
theorem trajectory_invariants (n : ℤ) (h : ℚ) (nstps : ℕ) (prec dx_store : ℚ)
    (_hns : 0 < nstps)
    (hnd : ∀ k < nstps - 1,
      ((loopStep n prec dx_store)^[k] (initState n h)).done = false →
        Nondegenerate n ((loopStep n prec dx_store)^[k] (initState n h))) :
    (integrate n h nstps prec dx_store).1.length
        = (integrate n h nstps prec dx_store).2.length ∧
    (integrate n h nstps prec dx_store).1 ≠ [] ∧
    List.Chain' (· < ·) (integrate n h nstps prec dx_store).1 ∧
    (integrate n h nstps prec dx_store).1.head? = some h ∧
    (integrate n h nstps prec dx_store).2.head? = some (center h (n:ℚ)) :=
  ⟨(inv_run n h nstps prec dx_store).len,
   (inv_run n h nstps prec dx_store).ne,
   strict_run n h prec dx_store (nstps - 1) hnd,
   (inv_run n h nstps prec dx_store).headx,
   (inv_run n h nstps prec dx_store).heady⟩

/-- Claim C10 (amended): any two consecutive stored samples other than a
final terminal-extrapolated one are separated by more than `dx_store`; the
terminal sample appended by the step-size test is not subject to the
spacing check and may lie closer than `dx_store` to its predecessor. -/
theorem stored_spacing (n : ℤ) (h : ℚ) (nstps : ℕ) (prec dx_store : ℚ)
    (_hns : 0 < nstps) :
    List.Chain' (fun a b => dx_store < b - a)
      (if (integrateRun n h nstps prec dx_store).done then
        (integrate n h nstps prec dx_store).1.dropLast
      else (integrate n h nstps prec dx_store).1) :=
  (inv_run n h nstps prec dx_store).spacing

section ConcreteRuns

attribute [local semireducible] Rat.add Rat.mul Rat.sub Rat.inv Rat.ofScientific

/-- The chosen step size at the concrete near-root state used in C1's
witness is 1/400, which is below the (large but valid) threshold prec = 1. -/
theorem stepSize_at_root : stepSize 0 (12/5) (1/25, -4/5) < 1 := by decide

/-- The n = 5 run with budget nstps = 2 never fires the terminal test. -/
theorem run5_never_terminal :
    (integrateRun 5 (1/10) 2 (1/1000000) (1/10)).done = false := by decide

/-- Every live iterate of the short n = 1 run is nondegenerate (no zero
state component and no zero derivative component is ever encountered). -/
theorem run1_nondegenerate :
    ∀ k < 3 - 1,
      ((loopStep 1 (1/1000000) (1/10))^[k] (initState 1 (1/1000))).done = false →
        Nondegenerate 1 ((loopStep 1 (1/1000000) (1/10))^[k] (initState 1 (1/1000))) := by
  decide

/-- Counterexample to C1's final clause ("this step-size test is the only
condition that ends a run normally"): with n = 1, h = 1/1000, nstps = 3,
prec = 10⁻⁶, dx_store = 1/10 the loop budget is exhausted with the break flag
never set, and the run still ends normally, returning the stored sequence. -/
theorem terminal_append_counterexample :
    (integrateRun 1 (1/1000) 3 (1/1000000) (1/10)).done = false ∧
    integrate 1 (1/1000) 3 (1/1000000) (1/10)
      = ([1/1000], [center (1/1000) 1]) := by
  decide

/-- Counterexample to C2: for the rootless index n = 5 (with h = 1/10,
nstps = 2, prec = 10⁻⁶, dx_store = 1/10) the driver exhausts its budget
without converging (`done` is still false) and returns the single seeded
point as a trajectory, with no error of any kind: non-convergence is
silent, and the caller receives a spurious truncated trajectory. -/
theorem nonconvergence_counterexample :
    (integrateRun 5 (1/10) 2 (1/1000000) (1/10)).done = false ∧
    (integrate 5 (1/10) 2 (1/1000000) (1/10)).1 = [1/10] := by
  decide

/-- Counterexample to C7: invoked at ξ = 0 (with state (1, 1), n = 1), `LE`
does not fail loudly; it returns the plain value (1, −1) — the source has no
error path at all, its body being a single total arithmetic expression. -/
theorem LE_no_domain_check_counterexample : LE 0 (1, 1) 1 = (1, -1) := by
  decide

/-- Counterexample to C8: called with the negative index n = −1 (and
h = 1/1000, nstps = 2, prec = 10⁻⁶, dx_store = 1/10), `integrate` is not
rejected: it performs an integration step (the working ξ strictly advances
past the initial offset) and returns a trajectory. -/
theorem no_config_validation_counterexample :
    (integrate (-1) (1/1000) 2 (1/1000000) (1/10)).1 = [1/1000] ∧
    1/1000 < (integrateRun (-1) (1/1000) 2 (1/1000000) (1/10)).x := by
  decide

/-- Counterexample to C10: for n = 0, h = 12/5, nstps = 2, prec = 1,
dx_store = 1/10 the run terminates on its first iteration and the returned
ξ sequence is [12/5, 981/400], whose final (terminal) gap 21/400 is NOT
greater than dx_store = 1/10. -/
theorem stored_spacing_counterexample :
    (integrate 0 (12/5) 2 1 (1/10)).1 = [12/5, 981/400] ∧
    ¬ ((1:ℚ)/10 < 981/400 - 12/5) := by
  decide

end ConcreteRuns

/-- Witness for C1: a concrete live state (the n = 0 solution near its root,
at ξ = 12/5) whose chosen step size 1/400 falls below prec = 1. -/
theorem terminal_append_witness :
    stepSize 0 (12/5) (1/25, -4/5) < 1 ∧
    (loopStep 0 1 (1/10)
      (⟨12/5, (1/25, -4/5), 12/5, [12/5], [(1/25, -4/5)], false⟩ : RunState)).done
      = true :=
  ⟨stepSize_at_root,
   (terminal_append 0 1 (1/10)
     ⟨12/5, (1/25, -4/5), 12/5, [12/5], [(1/25, -4/5)], false⟩
     rfl stepSize_at_root).2.2.1⟩

/-- Witness for C2's amended theorem at the n = 5 configuration of the
counterexample. -/
theorem nonconvergence_truncated_witness :
    (integrateRun 5 (1/10) 2 (1/1000000) (1/10)).done = false ∧
    ∀ a ∈ (integrate 5 (1/10) 2 (1/1000000) (1/10)).1,
      a ≤ (integrateRun 5 (1/10) 2 (1/1000000) (1/10)).x :=
  ⟨run5_never_terminal,
   nonconvergence_truncated 5 (1/10) 2 (1/1000000) (1/10) run5_never_terminal⟩

/-- Witness for C9 at the n = 1, h = 1/1000, nstps = 3 configuration. -/
theorem trajectory_invariants_witness :
    (0:ℕ) < 3 ∧
    List.Chain' (· < ·) (integrate 1 (1/1000) 3 (1/1000000) (1/10)).1 ∧
    (integrate 1 (1/1000) 3 (1/1000000) (1/10)).1.head? = some (1/1000) :=
  ⟨by norm_num,
   (trajectory_invariants 1 (1/1000) 3 (1/1000000) (1/10) (by norm_num)
     run1_nondegenerate).2.2.1,
   (trajectory_invariants 1 (1/1000) 3 (1/1000000) (1/10) (by norm_num)
     run1_nondegenerate).2.2.2.1⟩

/-- Witness for C10's amended theorem: an n = 0 run that fires the terminal
test on its first iteration; the stored pairs before the terminal sample
(here just the seeded point) satisfy the spacing bound. -/
theorem stored_spacing_witness :
    (0:ℕ) < 2 ∧
    List.Chain' (fun a b => (1:ℚ)/10 < b - a)
      (if (integrateRun 0 (12/5) 2 1 (1/10)).done then
        (integrate 0 (12/5) 2 1 (1/10)).1.dropLast
      else (integrate 0 (12/5) 2 1 (1/10)).1) :=
  ⟨by norm_num, stored_spacing 0 (12/5) 2 1 (1/10) (by norm_num)⟩

end LaneEmden
